import Mathlib

/-!
Shallow embedding of the `ruspiro-console` crate (src/src/lib.rs): a global
console registry holding at most one installed output sink plus a no-op
fallback sink, with `print` forwarding text to the currently active sink.

Sinks are trait objects; we model a `Box<dyn ConsoleImpl>` by its identity
(`sinkId`).  The observable behaviour of the registry operations is captured
as a trace of method-call events: which sink object's `puts` was invoked with
which string, and which sink object's `drop` (teardown) was invoked.
-/

namespace RuspiroConsole

/-- Reference to a sink object appearing in an event: either the permanent
fallback `DefaultConsole` stored in the registry, or an installed
`Box<dyn ConsoleImpl>` identified by its `sinkId`. -/
inductive SinkRef where
  | fallback : SinkRef
  | sink : Nat → SinkRef
deriving DecidableEq, Repr

/-- Observable method-call events of the registry semantics. -/
inductive Event where
  | putsCall : SinkRef → String → Event
  | dropCall : SinkRef → Event
deriving DecidableEq, Repr

/-- Rust `struct DefaultConsole;` — the fieldless fallback sink. -/
structure DefaultConsole where
deriving DecidableEq, Repr

/-- Source `impl ConsoleImpl for DefaultConsole` defines `fn puts(&self, _: &str)`
with an empty body, so the fallback transmits nothing; the result is the list
of strings transmitted to a device. -/
def DefaultConsole.puts (_self : DefaultConsole) (_s : String) : List String :=
  []

/-- Source `impl Drop for DefaultConsole` defines `fn drop(&mut self)` with an
empty body: dropping the fallback releases nothing and transmits nothing. -/
def DefaultConsole.drop (_self : DefaultConsole) : List String :=
  []

/-- A value of `Box<dyn ConsoleImpl>`: a concrete sink behind the
`ConsoleImpl` trait, modelled by the identity of the sink object. -/
structure ConsoleImpl where
  sinkId : Nat
deriving DecidableEq, Repr

/-- Required methods of `trait ConsoleImpl: Drop`: the trait itself declares
`fn puts(&self, s: &str)` and the supertrait `Drop` requires
`fn drop(&mut self)`; an implementor must provide both. -/
def consoleImplRequiredMethods : List String :=
  ["puts", "drop"]

/-- Emission methods of `trait ConsoleImpl`: the trait declares exactly one,
`fn puts(&self, s: &str)`, with no default body. -/
def consoleImplEmissionMethods : List String :=
  ["puts"]

/-- Rust `struct Console { current: Option<Box<dyn ConsoleImpl>>, default: DefaultConsole }`. -/
structure Console where
  current : Option ConsoleImpl
  default : DefaultConsole
deriving DecidableEq, Repr

/-- The initial value of the `CONSOLE` singleton:
`Console { current: None, default: DefaultConsole {} }`. -/
def CONSOLE : Console :=
  { current := none, default := {} }

/-- The `&dyn ConsoleImpl` returned by `Console::get_current`: either the
installed boxed sink or a reference to the registry's `default` field. -/
inductive CurrentSink where
  | installed : ConsoleImpl → CurrentSink
  | fromDefault : DefaultConsole → CurrentSink
deriving DecidableEq, Repr

/-- Source `Console::get_current`:
`if let Some(ref console) = self.current { console.as_ref() } else { &self.default }`. -/
def Console.get_current (c : Console) : CurrentSink :=
  match c.current with
  | some console => CurrentSink.installed console
  | none => CurrentSink.fromDefault c.default

/-- Dynamic dispatch of `.puts(s)` on the sink returned by `get_current`:
one `puts` method-call event on the addressed sink object. -/
def CurrentSink.putsEvents : CurrentSink → String → List Event
  | CurrentSink.installed c, s => [Event.putsCall (SinkRef.sink c.sinkId) s]
  | CurrentSink.fromDefault _, s => [Event.putsCall SinkRef.fallback s]

/-- Source `pub fn print(s: &str)`: inside the singleton's exclusive access,
`console.get_current().puts(s)`.  The closure does not mutate the console;
the trace records the single dispatched `puts` call. -/
def print (c : Console) (s : String) : Console × List Event :=
  (c, (c.get_current).putsEvents s)

/-- Source `Console::replace`: `self.current.replace(Box::from(console));` —
`Option::replace` stores `Some(new)` and returns the previous value; the
returned old `Option<Box<dyn ConsoleImpl>>` is discarded at the end of the
statement, which runs the boxed sink's `Drop::drop` if one was installed. -/
def Console.replace (c : Console) (console : ConsoleImpl) : Console × List Event :=
  let old := c.current
  ({ c with current := some console },
    match old with
    | some oldBox => [Event.dropCall (SinkRef.sink oldBox.sinkId)]
    | none => [])

/-- The registry operations reachable from client code: `print(s)` and
`CONSOLE.take_for(|cons| cons.replace(sink))`. -/
inductive Op where
  | print : String → Op
  | replace : ConsoleImpl → Op
deriving DecidableEq, Repr

/-- One registry operation, run inside the singleton's exclusive access. -/
def stepOp (c : Console) : Op → Console × List Event
  | Op.print s => print c s
  | Op.replace sk => Console.replace c sk

/-- A sequence of registry operations and the concatenated trace. -/
def runOps (c : Console) : List Op → Console × List Event
  | [] => (c, [])
  | op :: ops =>
    let r := stepOp c op
    let rest := runOps r.1 ops
    (rest.1, r.2 ++ rest.2)

/-- Checked semantics of a single operation: re-traces each source construct
(`take_for` closure body, the `if let` in `get_current`, `Option::replace`,
`Box::from`) and would return `none` at any construct that can panic or trap;
none of them can, so every arm yields `some`. -/
def stepOpChecked (c : Console) : Op → Option (Console × List Event)
  | Op.print s =>
    match c.current with
    | some console => some (c, [Event.putsCall (SinkRef.sink console.sinkId) s])
    | none => some (c, [Event.putsCall SinkRef.fallback s])
  | Op.replace sk =>
    match c.current with
    | some oldBox =>
      some ({ c with current := some sk }, [Event.dropCall (SinkRef.sink oldBox.sinkId)])
    | none => some ({ c with current := some sk }, [])

/-- Checked semantics of an operation sequence: traps propagate. -/
def runOpsChecked (c : Console) : List Op → Option (Console × List Event)
  | [] => some (c, [])
  | op :: ops =>
    match stepOpChecked c op with
    | none => none
    | some r =>
      match runOpsChecked r.1 ops with
      | none => none
      | some rest => some (rest.1, r.2 ++ rest.2)

/-- Selects those events of a trace that are `puts` calls addressed to the
sink object `r`. -/
def putsCallsTo (tr : List Event) (r : SinkRef) : List Event :=
  tr.filter fun e =>
    match e with
    | Event.putsCall r2 _ => r2 == r
    | Event.dropCall _ => false

/-- Tests whether an event is a teardown (a `Drop::drop` call) of some sink. -/
def Event.isDropCall : Event → Bool
  | Event.dropCall _ => true
  | Event.putsCall _ _ => false

/-- Modelled from the spec: the phase of one execution context with respect to
the exclusion primitive of `ruspiro_singleton::Singleton::take_for` (the
`Singleton` crate is not under src/): `idle` outside the critical section,
`holding` after acquiring the lock and before releasing it. -/
inductive Phase where
  | idle : Phase
  | holding : Phase
deriving DecidableEq, Repr

/-- Modelled from the spec: the global state of several execution contexts
sharing the `CONSOLE` singleton: the console registry, the owner of the
exclusion primitive (if held), each context's remaining operations and phase,
and the event trace accumulated so far. -/
structure SysState where
  console : Console
  lock : Option Nat
  ctxs : List (List Op × Phase)
  trace : List Event
deriving DecidableEq, Repr

/-- Modelled from the spec: context `i` acquires the exclusion primitive.
Enabled only when no context holds the lock and `i` is idle with an operation
pending; the lock then records `i` as its owner. -/
def acquire (s : SysState) (i : Nat) : Option SysState :=
  match s.lock, s.ctxs.get? i with
  | none, some (op :: ops, Phase.idle) =>
    some { s with lock := some i, ctxs := s.ctxs.set i (op :: ops, Phase.holding) }
  | _, _ => none

/-- Modelled from the spec: context `i` performs its pending registry
operation inside the critical section and releases the lock.  Enabled only
when `i` owns the lock; the whole operation (registry read, dispatch to the
sink, any teardown) happens in this single step, as `take_for` holds the lock
for the duration of the closure. -/
def access (s : SysState) (i : Nat) : Option SysState :=
  match s.lock, s.ctxs.get? i with
  | some j, some (op :: ops, Phase.holding) =>
    if j = i then
      some { console := (stepOp s.console op).1
             lock := none
             ctxs := s.ctxs.set i (ops, Phase.idle)
             trace := s.trace ++ (stepOp s.console op).2 }
    else none
  | _, _ => none

/-- The pending operation of context `i`, if any. -/
def ctxHeadOp (s : SysState) (i : Nat) : Option Op :=
  match s.ctxs.get? i with
  | some (op :: _, _) => some op
  | _ => none

/-- The event block the pending operation of context `i` would emit. -/
def traceOfHead (s : SysState) (i : Nat) : List Event :=
  match ctxHeadOp s i with
  | some op => (stepOp s.console op).2
  | none => []

/-- A concrete system state used to exercise the lock model: one context,
holding the lock, about to print. -/
def lockDemoState : SysState :=
  { console := CONSOLE
    lock := some 0
    ctxs := [([Op.print "a"], Phase.holding)]
    trace := [] }

/-- The system state after `lockDemoState`'s context performs its access. -/
def lockDemoNext : SysState :=
  { console := CONSOLE
    lock := none
    ctxs := [([], Phase.idle)]
    trace := [Event.putsCall SinkRef.fallback "a"] }

/-- A concrete console with an installed sink, used by witnesses. -/
def consoleWithSinkOne : Console :=
  { current := some { sinkId := 1 }, default := {} }

/-! Helper lemmas shared by the claim theorems. -/

lemma get_current_of_some {c : Console} {S : ConsoleImpl} (h : c.current = some S) :
    c.get_current = CurrentSink.installed S := by
  simp [Console.get_current, h]

lemma get_current_of_none {c : Console} (h : c.current = none) :
    c.get_current = CurrentSink.fromDefault c.default := by
  simp [Console.get_current, h]

lemma stepOp_print_of_some {c : Console} {S : ConsoleImpl} (h : c.current = some S)
    (s : String) :
    stepOp c (Op.print s) = (c, [Event.putsCall (SinkRef.sink S.sinkId) s]) := by
  simp [stepOp, print, get_current_of_some h, CurrentSink.putsEvents]

lemma stepOp_print_of_none {c : Console} (h : c.current = none) (s : String) :
    stepOp c (Op.print s) = (c, [Event.putsCall SinkRef.fallback s]) := by
  simp [stepOp, print, get_current_of_none h, CurrentSink.putsEvents]

lemma runOps_prints_installed {S : ConsoleImpl} :
    ∀ (texts : List String) (c : Console), c.current = some S →
      runOps c (texts.map Op.print)
        = (c, texts.map fun t => Event.putsCall (SinkRef.sink S.sinkId) t) := by
  intro texts
  induction texts with
  | nil => intro c h; rfl
  | cons t ts ih =>
    intro c h
    simp only [List.map_cons, runOps, stepOp_print_of_some h, ih c h]
    rfl

lemma runOps_prints_fallback :
    ∀ (texts : List String) (c : Console), c.current = none →
      runOps c (texts.map Op.print)
        = (c, texts.map fun t => Event.putsCall SinkRef.fallback t) := by
  intro texts
  induction texts with
  | nil => intro c h; rfl
  | cons t ts ih =>
    intro c h
    simp only [List.map_cons, runOps, stepOp_print_of_none h, ih c h]
    rfl

lemma putsCallsTo_map_ne {i : Nat} {r : SinkRef} (h : r ≠ SinkRef.sink i)
    (texts : List String) :
    putsCallsTo (texts.map fun t => Event.putsCall (SinkRef.sink i) t) r = [] := by
  induction texts with
  | nil => rfl
  | cons t ts ih =>
    have hb : (SinkRef.sink i == r) = false := by
      simp only [beq_eq_false_iff_ne, ne_eq]
      exact fun hh => h hh.symm
    simp only [List.map_cons, putsCallsTo, List.filter_cons] at ih ⊢
    simp [hb, ih]

lemma replace_current (c : Console) (S : ConsoleImpl) :
    ((Console.replace c S).1).current = some S := rfl

/-! Claim theorems. -/

/-- C1: after a sink `S` has been installed via `replace`, every subsequent
`print(text)` call results in exactly one call to `S`'s `puts` with exactly
the string `text`, and no call to the fallback sink's `puts` nor to any
previously installed sink's `puts` (any sink object other than `S`). -/
theorem print_after_replace_hits_new_sink_only (c : Console) (S : ConsoleImpl)
    (texts : List String) :
    (runOps ((Console.replace c S).1) (texts.map Op.print)).2
        = texts.map (fun t => Event.putsCall (SinkRef.sink S.sinkId) t)
      ∧ putsCallsTo ((runOps ((Console.replace c S).1) (texts.map Op.print)).2)
          SinkRef.fallback = []
      ∧ ∀ j : Nat, j = S.sinkId
          ∨ putsCallsTo ((runOps ((Console.replace c S).1) (texts.map Op.print)).2)
              (SinkRef.sink j) = [] := by
  have hrun := runOps_prints_installed texts ((Console.replace c S).1) (replace_current c S)
  refine ⟨by rw [hrun], ?_, ?_⟩
  · rw [hrun]
    exact putsCallsTo_map_ne (by simp) texts
  · intro j
    by_cases hj : j = S.sinkId
    · exact Or.inl hj
    · refine Or.inr ?_
      rw [hrun]
      exact putsCallsTo_map_ne (by simp [hj]) texts

/-- C2: calling `replace(S2)` while `S1` is installed invokes `S1`'s `Drop`
exactly once, in the same atomic registry operation that makes `S2` the
active sink; and `print` (the only other trace-producing operation) never
emits a teardown event. -/
theorem replace_tears_down_displaced_sink (c : Console) (S1 S2 : ConsoleImpl)
    (h : c.current = some S1) :
    (Console.replace c S2).2 = [Event.dropCall (SinkRef.sink S1.sinkId)]
      ∧ ((Console.replace c S2).1).current = some S2
      ∧ ∀ (d : Console) (s : String),
          (stepOp d (Op.print s)).2.filter Event.isDropCall = [] := by
  refine ⟨by simp [Console.replace, h], rfl, ?_⟩
  intro d s
  cases hd : d.current with
  | some S =>
    rw [stepOp_print_of_some hd]
    rfl
  | none =>
    rw [stepOp_print_of_none hd]
    rfl

/-- C2 witness: a concrete displacement and a concrete print. -/
theorem replace_tears_down_displaced_sink_witness :
    (Console.replace consoleWithSinkOne { sinkId := 2 }).2
        = [Event.dropCall (SinkRef.sink 1)]
      ∧ ((Console.replace consoleWithSinkOne { sinkId := 2 }).1).current
          = some { sinkId := 2 }
      ∧ (stepOp CONSOLE (Op.print "x")).2.filter Event.isDropCall = [] := by
  have h := replace_tears_down_displaced_sink consoleWithSinkOne
    { sinkId := 1 } { sinkId := 2 } rfl
  exact ⟨h.1, h.2.1, h.2.2 CONSOLE "x"⟩

/-- C3: every sequence of `print` calls made before any sink has been
installed leaves the registry state unchanged, addresses only the fallback
sink, and the fallback's `puts` transmits nothing. -/
theorem print_before_install_is_silent_noop (texts : List String) :
    runOps CONSOLE (texts.map Op.print)
        = (CONSOLE, texts.map fun t => Event.putsCall SinkRef.fallback t)
      ∧ ∀ t : String, DefaultConsole.puts CONSOLE.default t = [] := by
  exact ⟨runOps_prints_fallback texts CONSOLE rfl, fun t => rfl⟩

/-- C4 counterexample: the `ConsoleImpl` trait declares a single emission
method, `puts`; it declares no `put_char` method at all, so the claimed
`put_char`/`put_string` pair with a character-wise default does not exist. -/
theorem emission_contract_lacks_put_char :
    consoleImplEmissionMethods.contains "put_char" = false
      ∧ consoleImplEmissionMethods.length = 1 := by
  decide

/-- C4 amended: the sink capability contract offers exactly one emission
operation, `puts(&str)`, with no default body, and every `print` forwards
its text through exactly one `puts` call on the current sink. -/
theorem emission_contract_is_single_puts :
    consoleImplEmissionMethods = ["puts"]
      ∧ ∀ (c : Console) (s : String),
          ∃ r : SinkRef, (stepOp c (Op.print s)).2 = [Event.putsCall r s] := by
  refine ⟨rfl, ?_⟩
  intro c s
  cases hd : c.current with
  | some S => exact ⟨SinkRef.sink S.sinkId, by rw [stepOp_print_of_some hd]⟩
  | none => exact ⟨SinkRef.fallback, by rw [stepOp_print_of_none hd]⟩

lemma stepOpChecked_eq (c : Console) (op : Op) :
    stepOpChecked c op = some (stepOp c op) := by
  cases op with
  | print s =>
    cases hd : c.current with
    | some S => simp [stepOpChecked, hd, stepOp_print_of_some hd]
    | none => simp [stepOpChecked, hd, stepOp_print_of_none hd]
  | replace sk =>
    cases hd : c.current with
    | some S => simp [stepOpChecked, hd, stepOp, Console.replace]
    | none => simp [stepOpChecked, hd, stepOp, Console.replace]

/-- C5: every sequence of core operations (`print`, `replace`; `get_current`
runs inside `print`) is total: the checked semantics, which would return
`none` at any construct that can panic or trap, always returns `some` and
agrees with the plain semantics, for every input string and registry state. -/
theorem core_ops_total :
    ∀ (ops : List Op) (c : Console),
      runOpsChecked c ops = some (runOps c ops)
        ∧ (runOpsChecked c ops).isSome = true := by
  intro ops
  induction ops with
  | nil => intro c; exact ⟨rfl, rfl⟩
  | cons op rest ih =>
    intro c
    have h := (ih (stepOp c op).1).1
    constructor
    · simp only [runOpsChecked, stepOpChecked_eq, h, runOps]
    · simp only [runOpsChecked, stepOpChecked_eq, h]
      rfl

lemma stepOp_no_fallback_drop (c : Console) (op : Op) :
    (stepOp c op).2.filter (fun e => e == Event.dropCall SinkRef.fallback) = [] := by
  cases op with
  | print s =>
    cases hd : c.current with
    | some S => rw [stepOp_print_of_some hd]; rfl
    | none => rw [stepOp_print_of_none hd]; rfl
  | replace sk =>
    cases hd : c.current with
    | some S => simp [stepOp, Console.replace, hd]
    | none => simp [stepOp, Console.replace, hd]

lemma stepOp_default (c : Console) (op : Op) :
    ((stepOp c op).1).default = c.default := by
  cases op with
  | print s =>
    cases hd : c.current with
    | some S => rw [stepOp_print_of_some hd]
    | none => rw [stepOp_print_of_none hd]
  | replace sk => rfl

/-- C6: `replace` modifies only the `current` field and leaves the `default`
field unchanged; no sequence of registry operations changes the fallback or
emits a teardown of the fallback sink. -/
theorem fallback_never_displaced_or_dropped (c : Console) (S : ConsoleImpl)
    (ops : List Op) :
    ((Console.replace c S).1).default = c.default
      ∧ ((runOps c ops).1).default = c.default
      ∧ (runOps c ops).2.filter (fun e => e == Event.dropCall SinkRef.fallback) = [] := by
  refine ⟨rfl, rfl, ?_⟩
  · induction ops generalizing c with
    | nil => rfl
    | cons op rest ih =>
      simp only [runOps, List.filter_append]
      rw [stepOp_no_fallback_drop, ih (stepOp c op).1]
      rfl

/-- C7: in every registry state, `get_current` returns the installed sink
when one is present, and the fallback sink stored in the `default` field
otherwise. -/
theorem get_current_resolves_installed_else_fallback (c : Console) :
    (∀ S : ConsoleImpl, c.current = some S → c.get_current = CurrentSink.installed S)
      ∧ (c.current = none → c.get_current = CurrentSink.fromDefault c.default) :=
  ⟨fun _ h => get_current_of_some h, fun h => get_current_of_none h⟩

/-- C7 witness: resolution on a console with an installed sink and on the
initial console. -/
theorem get_current_resolves_installed_else_fallback_witness :
    consoleWithSinkOne.get_current = CurrentSink.installed { sinkId := 1 }
      ∧ CONSOLE.get_current = CurrentSink.fromDefault CONSOLE.default :=
  ⟨(get_current_resolves_installed_else_fallback consoleWithSinkOne).1 { sinkId := 1 } rfl,
    (get_current_resolves_installed_else_fallback CONSOLE).2 rfl⟩

lemma access_spec {s : SysState} {i : Nat} {si : SysState}
    (h : access s i = some si) :
    s.lock = some i ∧ (ctxHeadOp s i).isSome = true
      ∧ si.trace = s.trace ++ traceOfHead s i := by
  unfold access at h
  split at h
  · rename_i j op ops heq1 heq2
    split at h
    · rename_i hji
      subst hji
      refine ⟨heq1, ?_, ?_⟩
      · unfold ctxHeadOp
        rw [heq2]
        rfl
      · have hsi := Option.some.inj h
        rw [← hsi]
        unfold traceOfHead ctxHeadOp
        rw [heq2]
    · exact absurd h (by simp)
  · exact absurd h (by simp)

/-- C8: registry accesses are mutually exclusive: in the lock model of the
singleton's `take_for`, two enabled accesses must come from the same context
(the unique lock owner), and each access appends the whole event block of one
operation to the trace in a single step, so a displaced sink's teardown
cannot interleave with a `print` that is mid-transmission. -/
theorem take_for_access_mutually_exclusive (s : SysState) (i j : Nat)
    (si sj : SysState) (hi : access s i = some si) (hj : access s j = some sj) :
    i = j ∧ (ctxHeadOp s i).isSome = true
      ∧ si.trace = s.trace ++ traceOfHead s i := by
  have hi2 := access_spec hi
  have hj2 := access_spec hj
  exact ⟨Option.some.inj (hi2.1.symm.trans hj2.1), hi2.2.1, hi2.2.2⟩

/-- C8 witness: a single-context system performing one print under the lock. -/
theorem take_for_access_mutually_exclusive_witness :
    (0 : Nat) = 0 ∧ (ctxHeadOp lockDemoState 0).isSome = true
      ∧ lockDemoNext.trace = lockDemoState.trace ++ traceOfHead lockDemoState 0 :=
  take_for_access_mutually_exclusive lockDemoState 0 0 lockDemoNext lockDemoNext
    rfl rfl

/-- C9: the `ConsoleImpl` trait has `Drop` as a supertrait, so every
installable sink type must provide both `puts` and an explicit `drop`
(teardown) implementation, and `replace` is what invokes the displaced
sink's `drop`. -/
theorem installed_sinks_require_drop_impl :
    "puts" ∈ consoleImplRequiredMethods ∧ "drop" ∈ consoleImplRequiredMethods
      ∧ ∀ (c : Console) (S1 S2 : ConsoleImpl), c.current = some S1 →
          (Console.replace c S2).2 = [Event.dropCall (SinkRef.sink S1.sinkId)] := by
  refine ⟨by simp [consoleImplRequiredMethods], by simp [consoleImplRequiredMethods], ?_⟩
  intro c S1 S2 h
  simp [Console.replace, h]

/-- C9 witness: the required `drop` method and a concrete displacement. -/
theorem installed_sinks_require_drop_impl_witness :
    "drop" ∈ consoleImplRequiredMethods
      ∧ (Console.replace consoleWithSinkOne { sinkId := 2 }).2
          = [Event.dropCall (SinkRef.sink 1)] :=
  ⟨installed_sinks_require_drop_impl.2.1,
    installed_sinks_require_drop_impl.2.2 consoleWithSinkOne
      { sinkId := 1 } { sinkId := 2 } rfl⟩

/-- C10: calling `replace` when no sink is installed installs the new sink
and emits no teardown event at all: there is no previous sink to drop and
the fallback's `Drop` is not run. -/
theorem replace_on_empty_installs_without_teardown (c : Console) (S : ConsoleImpl)
    (h : c.current = none) :
    (Console.replace c S).1 = { c with current := some S }
      ∧ (Console.replace c S).2 = [] :=
  ⟨rfl, by simp [Console.replace, h]⟩

/-- C10 witness: installing into the initial console. -/
theorem replace_on_empty_installs_without_teardown_witness :
    (Console.replace CONSOLE { sinkId := 1 }).1
        = { CONSOLE with current := some { sinkId := 1 } }
      ∧ (Console.replace CONSOLE { sinkId := 1 }).2 = [] :=
  replace_on_empty_installs_without_teardown CONSOLE { sinkId := 1 } rfl

end RuspiroConsole
